import Mathlib

/-!
Verification of the Rljson class (src/rljson.ts): an in-memory,
content-addressed relational store over plain JSON.  JavaScript objects are
embedded as insertion-ordered association lists; the external gg-json-hash
provider is abstracted as a hash function parameter over a row content.
Aggregate (root and table level) hashes maintained by the hash provider are
not part of the model: no claim mentions them and they do not influence the
ordered table data or the hash index.
-/

deriving instance DecidableEq for Except

namespace Rljson

/-- JSON leaf values stored in row fields.  Rows in the source are flat
string-keyed objects; the claims only involve leaf-valued fields. -/
inductive Json where
  | null : Json
  | bool (b : Bool) : Json
  | num (n : Int) : Json
  | str (s : String) : Json
deriving Repr, DecidableEq

/-- JavaScript object field read: the binding of the key in the association
list, or none when the key is absent (JS undefined). -/
def jget {α : Type} : List (String × α) → String → Option α
  | [], _ => none
  | (k0, v) :: rest, k => if k0 = k then some v else jget rest k

/-- JavaScript object field write: an existing binding keeps its position and
gets the new value, a fresh key is appended at the end (JS insertion order). -/
def jset {α : Type} : List (String × α) → String → α → List (String × α)
  | [], k, v => [(k, v)]
  | (k0, v0) :: rest, k, v =>
      if k0 = k then (k0, v) :: rest else (k0, v0) :: jset rest k v

/-- Maps a function over the values of an association list, keeping keys. -/
def mapVal {α β : Type} (f : α → β) (l : List (String × α)) : List (String × β) :=
  l.map (fun e => (e.1, f e.2))

/-- A row: a flat JS object from field names to JSON leaves, possibly
carrying its content hash under the reserved key. -/
abbrev Row := List (String × Json)

/-- JavaScript string coercion used when a JSON value is used as a property
key or interpolated into a template string. -/
def jsKey : Json → String
  | Json.null => "null"
  | Json.bool true => "true"
  | Json.bool false => "false"
  | Json.num n => toString n
  | Json.str s => s

/-- The non-hash content of a row, the input of the content hash. -/
def stripHash (r : Row) : Row := r.filter (fun kv => kv.1 != "_hash")

/-- The hash stored in a row, as the string a JS property access would use;
an absent hash reads as undefined. -/
def rowHash (r : Row) : String :=
  match jget r "_hash" with
  | some j => jsKey j
  | none => "undefined"

/-- Modelled from the spec: the external HashProvider (gg-json-hash, not
under src) stamps each object with a content hash over its non-hash fields;
with updateExistingHashes true an existing hash is recomputed, otherwise it
is kept.  The digest itself is the parameter h. -/
def applyRow (h : Row → String) (upd : Bool) (r : Row) : Row :=
  if upd then jset r "_hash" (Json.str (h (stripHash r)))
  else
    match jget r "_hash" with
    | some _ => r
    | none => jset r "_hash" (Json.str (h (stripHash r)))

/-- Field read with the JS loose null test of the source (value == null):
a key bound to JSON null is indistinguishable from an absent key. -/
def jgetNN (r : Row) (k : String) : Option Json :=
  match jget r k with
  | some Json.null => none
  | o => o

/-- Errors thrown by the class, with the identifiers their messages embed. -/
inductive Err where
  | missingData (tables : List String) : Err
  | wrongType (tables : List String) : Err
  | invalidTableNameChars (name : String) : Err
  | invalidTableNameRef (name : String) : Err
  | invalidTableNameDigit (name : String) : Err
  | hashValidation : Err
  | tableNotFound (table : String) : Err
  | tableNotFoundSel (table : String) : Err
  | itemNotFound (hash table : String) : Err
  | emptyItemHash : Err
  | keyNotFound (key hash table : String) : Err
  | extraKey (refHash refKey : String) : Err
  | linkTableNotFound (table hash key : String) : Err
  | linkItemNotFound (table hash targetHash tableName : String) : Err
  | typeErr (msg : String) : Err
deriving Repr, DecidableEq

/-- Joins a list of names with a comma, as Array.prototype.join does. -/
def joinComma : List String → String
  | [] => ""
  | [s] => s
  | s :: rest => s ++ ", " ++ joinComma rest

/-- The message text of each error, mirroring the template strings of the
source. -/
def Err.message : Err → String
  | Err.missingData ts => "_data is missing in table: " ++ joinComma ts
  | Err.wrongType ts => "_data must be a list in table: " ++ joinComma ts
  | Err.invalidTableNameChars n =>
      "Invalid table name: " ++ n ++ ". Only letters and numbers are allowed."
  | Err.invalidTableNameRef n =>
      "Invalid table name: " ++ n ++ ". Table names must not end with \"Ref\"."
  | Err.invalidTableNameDigit n =>
      "Invalid table name: " ++ n ++ ". Table names must not start with a number."
  | Err.hashValidation => "Hash is missing."
  | Err.tableNotFound t => "Table not found: " ++ t
  | Err.tableNotFoundSel t => "Table \"" ++ t ++ "\" not found."
  | Err.itemNotFound h t =>
      "Item not found with hash \"" ++ h ++ "\" in table \"" ++ t ++ "\""
  | Err.emptyItemHash => "itemHash must not be empty."
  | Err.keyNotFound k h t =>
      "Key \"" ++ k ++ "\" not found in item with hash \"" ++ h ++
        "\" in table \"" ++ t ++ "\""
  | Err.extraKey rh rk =>
      "Invalid key \"" ++ rh ++ "\". Additional keys are only allowed for links. But key \"" ++
        rk ++ "\" points to a value."
  | Err.linkTableNotFound t h k =>
      "Table \"" ++ t ++ "\" has an item \"" ++ h ++
        "\" which links to not existing table \"" ++ k ++ "\"."
  | Err.linkItemNotFound t h th tn =>
      "Table \"" ++ t ++ "\" has an item \"" ++ h ++
        "\" which links to not existing item \"" ++ th ++ "\" in table \"" ++ tn ++ "\"."
  | Err.typeErr m => m

/-- Whether a field name is a reference field: it ends in the marker Ref. -/
def isRefKey (k : String) : Bool :=
  List.isSuffixOf ("Ref".toList) k.toList

/-- Strips the three-character reference marker, yielding the target table
name (key.substring(0, key.length - 3) in the source). -/
def stripRef (k : String) : String := (k.toList.dropLast.dropLast.dropLast).asString

/-- The character class of the table name regex: ASCII letters and digits. -/
def validTableChars (s : String) : Bool :=
  !(s.toList.isEmpty) && s.toList.all Char.isAlphanum

/-- Whether the first character is an ASCII digit, as the leading-digit
regex of the source tests. -/
def startsWithDigit (s : String) : Bool :=
  match s.toList with
  | [] => false
  | c :: _ => c.isDigit

/-- checkTableName of the source: character set first, then the reserved
Ref suffix, then the leading digit; the first violated rule throws. -/
def checkTableName (s : String) : Except Err Unit :=
  if !(validTableChars s) then Except.error (Err.invalidTableNameChars s)
  else if isRefKey s then Except.error (Err.invalidTableNameRef s)
  else if startsWithDigit s then Except.error (Err.invalidTableNameDigit s)
  else Except.ok ()

/-- checkTableNames of the source: every key except the reserved hash key is
validated in order; the first failure throws. -/
def checkNamesList : List String → Except Err Unit
  | [] => Except.ok ()
  | k :: rest =>
      if k = "_hash" then checkNamesList rest
      else
        match checkTableName k with
        | Except.error e => Except.error e
        | Except.ok _ => checkNamesList rest

/-- The value found under the rows-container key of an incoming table entry:
an array of rows, or some other JSON value. -/
inductive BVal where
  | rows (rs : List Row) : BVal
  | nonArray (j : Json) : BVal
deriving Repr, DecidableEq

/-- An incoming table entry of addData: its optional rows-container field.
The structural check of the source reads no other field of the entry. -/
structure BTable where
  dataField : Option BVal
deriving Repr, DecidableEq

/-- An addData batch: a JS object from table names to table entries. -/
abbrev Batch := List (String × BTable)

/-- Whether the rows-container reads as null in JS (absent, or JSON null):
the missing-container condition items == null of the source. -/
def bvalIsNull : Option BVal → Bool
  | none => true
  | some (BVal.nonArray Json.null) => true
  | _ => false

/-- Whether the rows-container is an array: Array.isArray(items). -/
def bvalIsArray : Option BVal → Bool
  | some (BVal.rows _) => true
  | _ => false

/-- The offender list of the missing-container check of _checkData, in
batch order. -/
def missingList (batch : Batch) : List String :=
  (batch.filter (fun e => e.1 != "_hash" && bvalIsNull e.2.dataField)).map Prod.fst

/-- The offender list of the wrong-type check of _checkData, in batch order.
The source pushes a table here whenever its container is not an array, so a
table with a missing container lands in this list as well. -/
def wrongList (batch : Batch) : List String :=
  (batch.filter (fun e => e.1 != "_hash" && !(bvalIsArray e.2.dataField))).map Prod.fst

/-- _checkData of the source: collect both offender lists over the whole
batch, then throw the combined missing-container error if its list is
non-empty, else the combined wrong-type error if its list is non-empty. -/
def checkData (batch : Batch) : Except Err Unit :=
  if missingList batch ≠ [] then Except.error (Err.missingData (missingList batch))
  else if wrongList batch ≠ [] then Except.error (Err.wrongType (wrongList batch))
  else Except.ok ()

/-- checkTableNames applied to a batch: validate every key but the reserved
hash key, in order. -/
def checkTableNames (batch : Batch) : Except Err Unit :=
  checkNamesList (batch.map Prod.fst)

/-- The genuine tables of a batch with their row arrays.  addData reads the
batch this way only after _checkData has ensured every non-hash entry
carries an array container. -/
def batchRows (batch : Batch) : List (String × List Row) :=
  batch.filterMap (fun e =>
    if e.1 = "_hash" then none
    else
      match e.2.dataField with
      | some (BVal.rows rs) => some (e.1, rs)
      | _ => none)

/-- Modelled from the spec: validate of the external HashProvider throws if
any embedded hash disagrees with a fresh computation, and the test suite
shows a missing hash throws as well. -/
def validateRows (h : Row → String) (tables : List (String × List Row)) : Except Err Unit :=
  if tables.all (fun t =>
      t.2.all (fun r => decide (jget r "_hash" = some (Json.str (h (stripHash r))))))
  then Except.ok () else Except.error Err.hashValidation

/-- Stamps every row of every table with its content hash, as the apply call
of addData does over the incoming batch. -/
def hashTables (h : Row → String) (upd : Bool) (tables : List (String × List Row)) :
    List (String × List Row) :=
  mapVal (fun rs => rs.map (applyRow h upd)) tables

/-- The inner loop of _toMap: tableData[hash] = item for each row in order;
a repeated hash keeps the first position and the last row wins. -/
def rowsToMap (rs : List Row) : List (String × Row) :=
  rs.foldl (fun m r => jset m (rowHash r) r) []

/-- _toMap of the source: the hash-keyed view of every table.  Keys starting
with an underscore are skipped by the source; here only the reserved hash
key can occur and batchRows has already dropped it. -/
def toMap (tables : List (String × List Row)) : List (String × List (String × Row)) :=
  mapVal rowsToMap tables

/-- The options of addData. -/
structure AddOpts where
  validateHashes : Bool
  updateHashes : Bool
deriving Repr, DecidableEq

/-- The default options of addData: validateHashes false, updateHashes
true. -/
def defaultOpts : AddOpts := AddOpts.mk false true

/-- The store: per table an ordered row sequence (the _data array of data)
and a hash-keyed row index (dataIndexed). -/
structure Store where
  data : List (String × List Row)
  dataIndexed : List (String × List (String × Row))
deriving Repr, DecidableEq

/-- The empty store. -/
def Store.empty : Store := Store.mk [] []

/-- The merge loop for one existing table: iterate incoming rows in order;
a row whose hash is absent from the evolving index is appended to the
sequence and inserted into the index, otherwise it is dropped. -/
def mergeRows (old : List Row × List (String × Row)) (newRows : List Row) :
    List Row × List (String × Row) :=
  newRows.foldl
    (fun acc item =>
      let hsh := rowHash item
      if (jget acc.2 hsh).isSome then acc
      else (acc.1 ++ [item], jset acc.2 hsh item))
    old

/-- One iteration of the merge loop of addData: a table absent from the
original store is adopted wholesale with its indexed map, an existing table
is merged row by row against the original sequence and index; the result
replaces (or appends) the table in the accumulated store views. -/
def mergeStep (store : Store) (addedMap : List (String × List (String × Row)))
    (acc : List (String × List Row) × List (String × List (String × Row)))
    (t : String × List Row) :
    List (String × List Row) × List (String × List (String × Row)) :=
  match jget store.data t.1 with
  | none => (jset acc.1 t.1 t.2, jset acc.2 t.1 ((jget addedMap t.1).getD []))
  | some oldRows =>
      let oldIdx := (jget store.dataIndexed t.1).getD []
      let merged := mergeRows (oldRows, oldIdx) t.2
      (jset acc.1 t.1 merged.1, jset acc.2 t.1 merged.2)

/-- The merge branch of addData over a non-empty store: the merge loop over
every incoming table, starting from spreads of the current store views. -/
def mergeAll (store : Store) (added : List (String × List Row))
    (addedMap : List (String × List (String × Row))) : Store :=
  let p := added.foldl (mergeStep store addedMap) (store.data, store.dataIndexed)
  Store.mk p.1 p.2

/-- addData of the source as a state transformer: the first component is the
returned value (the thrown error or the returned instance), the second the
state of the receiver after the call.  Checks run in source order before
anything else; the empty-store branch returns a fresh instance and leaves
the receiver untouched; the merge branch replaces the receiver state and
returns it. -/
def addDataRun (h : Row → String) (store : Store) (batch : Batch) (opts : AddOpts) :
    Except Err Store × Store :=
  match checkData batch with
  | Except.error e => (Except.error e, store)
  | Except.ok _ =>
  match checkTableNames batch with
  | Except.error e => (Except.error e, store)
  | Except.ok _ =>
  match (if opts.validateHashes then validateRows h (batchRows batch) else Except.ok ()) with
  | Except.error e => (Except.error e, store)
  | Except.ok _ =>
    let added := hashTables h opts.updateHashes (batchRows batch)
    let addedMap := toMap added
    if store.data.isEmpty then (Except.ok (Store.mk added addedMap), store)
    else
      let merged := mergeAll store added addedMap
      (Except.ok merged, merged)

/-- The value addData returns: the new instance for an empty receiver, the
merged receiver otherwise. -/
def addData (h : Row → String) (store : Store) (batch : Batch) (opts : AddOpts) :
    Except Err Store :=
  (addDataRun h store batch opts).1

/-- row of the source: locate the table in the hash index (error when the
table is absent), then the row by hash (error naming hash and table). -/
def Store.row (store : Store) (table hash : String) : Except Err Row :=
  match jget store.dataIndexed table with
  | none => Except.error (Err.tableNotFound table)
  | some td =>
      match jget td hash with
      | none => Except.error (Err.itemNotFound hash table)
      | some item => Except.ok item

/-- The result of value: the whole row when the path is empty, otherwise a
leaf value. -/
inductive RVal where
  | row (r : Row) : RVal
  | val (j : Json) : RVal
deriving Repr, DecidableEq

/-- The body of value after the row has been fetched, recursing on the
remaining path.  An empty path returns the row; a missing (or JSON null)
first key throws naming key, row hash and table; a non-reference first key
must be terminal, with a further segment throwing the extra-key error; a
reference first key strips the marker, treats the field value as the next
row hash (JS string coercion) and repeats the empty-hash check and row
lookup of the recursive value call. -/
def valueGo (store : Store) (table itemHash : String) (row : Row) :
    List String → Except Err RVal
  | [] => Except.ok (RVal.row row)
  | refKey :: rest =>
      match jgetNN row refKey with
      | none => Except.error (Err.keyNotFound refKey itemHash table)
      | some v =>
          if !(isRefKey refKey) then
            match rest with
            | [] => Except.ok (RVal.val v)
            | refHash :: _ => Except.error (Err.extraKey refHash refKey)
          else
            let targetTable := stripRef refKey
            let targetHash := jsKey v
            if targetHash.isEmpty then Except.error Err.emptyItemHash
            else
              match Store.row store targetTable targetHash with
              | Except.error e => Except.error e
              | Except.ok row2 => valueGo store targetTable targetHash row2 rest

/-- value of the source: reject an empty row hash, fetch the row, then
resolve the path with valueGo. -/
def value (store : Store) (table itemHash : String) (followLink : List String) :
    Except Err RVal :=
  if itemHash.isEmpty then Except.error Err.emptyItemHash
  else
    match Store.row store table itemHash with
    | Except.error e => Except.error e
    | Except.ok r => valueGo store table itemHash r followLink

/-- A cell of the grid select returns: JS undefined when a plain column name
is absent from a source row, otherwise the raw value or, through value, a
resolved leaf or row. -/
inductive Cell where
  | undef : Cell
  | val (j : Json) : Cell
  | row (r : Row) : Cell
deriving Repr, DecidableEq

/-- Converts a value result into a grid cell. -/
def cellOfRVal : RVal → Cell
  | RVal.row r => Cell.row r
  | RVal.val j => Cell.val j

/-- Splitting a character list at a separator, as JS String.split does for
a one-character separator: splitting the empty string keeps one empty
piece, and separators at the ends produce empty pieces. -/
def splitChars (sep : Char) : List Char → List (List Char)
  | [] => [[]]
  | c :: rest =>
      let r := splitChars sep rest
      if c = sep then [] :: r
      else
        match r with
        | [] => [[c]]
        | w :: ws => (c :: w) :: ws

/-- column.split(slash) of the source; never empty. -/
def splitCol (c : String) : List String := (splitChars '/' c.toList).map List.asString

/-- One cell of select: a non-reference first segment is read raw from the
source row (undefined when absent, any further segments ignored); a
reference first segment strips the marker and resolves the remaining path
through value.  Passing an absent or null field value as the row hash makes
the length test of value throw a TypeError in JS. -/
def selectCell (store : Store) (sourceRow : Row) : List String → Except Err Cell
  | [] => Except.error (Err.typeErr "undefined has no endsWith")
  | key :: rest =>
      if !(isRefKey key) then
        match jget sourceRow key with
        | none => Except.ok Cell.undef
        | some j => Except.ok (Cell.val j)
      else
        let targetTable := stripRef key
        match jget sourceRow key with
        | none => Except.error (Err.typeErr "cannot read length of undefined")
        | some Json.null => Except.error (Err.typeErr "cannot read length of null")
        | some v => (value store targetTable (jsKey v) rest).map cellOfRVal

/-- A loop that fills a result list element by element, aborting the whole
computation at the first thrown error, as the for loops of select do. -/
def mapE {α β : Type} (f : α → Except Err β) : List α → Except Err (List β)
  | [] => Except.ok []
  | a :: rest =>
      match f a with
      | Except.error e => Except.error e
      | Except.ok b =>
          match mapE f rest with
          | Except.error e => Except.error e
          | Except.ok bs => Except.ok (b :: bs)

/-- select of the source: fetch the ordered rows of the table from data
(error when absent), split every column at slashes, then produce one output
row per source row and one cell per column, in order; a throw inside the
loops aborts the whole call. -/
def select (store : Store) (table : String) (columns : List String) :
    Except Err (List (List Cell)) :=
  match jget store.data table with
  | none => Except.error (Err.tableNotFoundSel table)
  | some rows =>
      let parts := columns.map splitCol
      mapE (fun r => mapE (selectCell store r) parts) rows

/-- ls of the source: walk the hash index table by table, row by row, field
by field, pushing table/rowHash/field for every field except the reserved
hash key. -/
def ls (store : Store) : List String :=
  store.dataIndexed.foldl
    (fun res t =>
      t.2.foldl
        (fun res2 hr =>
          hr.2.foldl
            (fun res3 kv =>
              if kv.1 = "_hash" then res3
              else res3 ++ [t.1 ++ "/" ++ hr.1 ++ "/" ++ kv.1])
            res2)
        res)
    []

/-- The checkLinks scan of one row, over its field names in order: for each
reference field, the target table must exist in the hash index (else the
link-table error naming source table, row hash and the full field name) and
the field value must be a row hash of it (else the link-item error naming
source table, row hash, the dangling hash and the target table). -/
def checkRowLinks (store : Store) (table : String) (item : Row) :
    List String → Except Err Unit
  | [] => Except.ok ()
  | key :: rest =>
      if key = "_hash" then checkRowLinks store table item rest
      else
        if isRefKey key then
          let tableName := stripRef key
          let hash := rowHash item
          match jget store.dataIndexed tableName with
          | none => Except.error (Err.linkTableNotFound table hash key)
          | some linkTable =>
              let targetHash := jsKey ((jget item key).getD Json.null)
              match jget linkTable targetHash with
              | none => Except.error (Err.linkItemNotFound table hash targetHash tableName)
              | some _ => checkRowLinks store table item rest
        else checkRowLinks store table item rest

/-- The checkLinks scan of one table: every indexed row in order. -/
def checkTableLinks (store : Store) (table : String) :
    List (String × Row) → Except Err Unit
  | [] => Except.ok ()
  | e :: rest =>
      match checkRowLinks store table e.2 (e.2.map Prod.fst) with
      | Except.error err => Except.error err
      | Except.ok _ => checkTableLinks store table rest

/-- The checkLinks scan over a list of tables. -/
def checkTablesLinks (store : Store) :
    List (String × List (String × Row)) → Except Err Unit
  | [] => Except.ok ()
  | t :: rest =>
      match checkTableLinks store t.1 t.2 with
      | Except.error err => Except.error err
      | Except.ok _ => checkTablesLinks store rest

/-- checkLinks of the source: scan every table of the hash index in order
and throw at the first violation. -/
def checkLinks (store : Store) : Except Err Unit :=
  checkTablesLinks store store.dataIndexed

/-- The hash-index entry of a row. -/
def pairRow (r : Row) : String × Row := (rowHash r, r)

/-- The tables addData will adopt or merge, with hashes stamped. -/
def addedTables (h : Row → String) (batch : Batch) (opts : AddOpts) :
    List (String × List Row) :=
  hashTables h opts.updateHashes (batchRows batch)

/-- The synchronization invariant of the two table views: the hash index is
exactly the per-row hash pairing of the ordered sequence, and every ordered
sequence has pairwise distinct row hashes. -/
def storeInv (s : Store) : Prop :=
  s.dataIndexed = mapVal (List.map pairRow) s.data ∧
  ∀ t rs, jget s.data t = some rs → (rs.map rowHash).Nodup

/-- The invariant exactly as the claim states it: within every table, rows
are pairwise distinct by hash and the hash index holds exactly one entry
per row of the ordered sequence. -/
def claimInv (s : Store) : Prop :=
  ∀ t rs, jget s.data t = some rs →
    (rs.map rowHash).Nodup ∧ (jget s.dataIndexed t).map List.length = some rs.length

/-- All stores reachable from the empty store by successful addData calls.
A batch is a JS object, so its keys are pairwise distinct. -/
inductive Reachable (h : Row → String) : Store → Prop where
  | empty : Reachable h Store.empty
  | step (s s' : Store) (batch : Batch) (opts : AddOpts) :
      Reachable h s → (batch.map Prod.fst).Nodup →
      addData h s batch opts = Except.ok s' → Reachable h s'

/-- Whether every incoming table that does not yet exist in the store (in
particular every table when the store is empty) carries rows of pairwise
distinct hashes after stamping. -/
def freshDistinctB (h : Row → String) (s : Store) (batch : Batch) (opts : AddOpts) : Bool :=
  (batchRows batch).all (fun e =>
    if (jget s.data e.1).isNone then
      decide (((e.2.map (applyRow h opts.updateHashes)).map rowHash).Nodup)
    else true)

/-- Reachability restricted to ingestions whose freshly adopted tables have
pairwise distinct row hashes. -/
inductive ReachableD (h : Row → String) : Store → Prop where
  | empty : ReachableD h Store.empty
  | step (s s' : Store) (batch : Batch) (opts : AddOpts) :
      ReachableD h s → (batch.map Prod.fst).Nodup →
      freshDistinctB h s batch opts = true →
      addData h s batch opts = Except.ok s' → ReachableD h s'

/-- A broken link of one row: a reference field (other than the hash key)
whose target table is absent from the hash index or whose value is not a
row hash of the target table. -/
def rowViol (s : Store) (item : Row) (k : String) : Prop :=
  k ≠ "_hash" ∧ isRefKey k = true ∧
    (jget s.dataIndexed (stripRef k) = none ∨
     ∃ lt, jget s.dataIndexed (stripRef k) = some lt ∧
       jget lt (jsKey ((jget item k).getD Json.null)) = none)

/-- Some row of some table of the store has a broken link. -/
def linkViol (s : Store) : Prop :=
  ∃ t idx, (t, idx) ∈ s.dataIndexed ∧ ∃ p, p ∈ idx ∧
    ∃ k, k ∈ p.2.map Prod.fst ∧ rowViol s p.2 k

/-- The error thrown by checkLinks describes an actual broken link of the
store: its source table, the source row (through its own hash), and either
the missing target table (through the full field name) or the dangling
target hash together with the target table. -/
def errViol (s : Store) (e : Err) : Prop :=
  (∃ t idx, (t, idx) ∈ s.dataIndexed ∧ ∃ p, p ∈ idx ∧ ∃ k, k ∈ p.2.map Prod.fst ∧
    isRefKey k = true ∧ jget s.dataIndexed (stripRef k) = none ∧
    e = Err.linkTableNotFound t (rowHash p.2) k) ∨
  (∃ t idx, (t, idx) ∈ s.dataIndexed ∧ ∃ p, p ∈ idx ∧ ∃ k lt, k ∈ p.2.map Prod.fst ∧
    isRefKey k = true ∧ jget s.dataIndexed (stripRef k) = some lt ∧
    jget lt (jsKey ((jget p.2 k).getD Json.null)) = none ∧
    e = Err.linkItemNotFound t (rowHash p.2) (jsKey ((jget p.2 k).getD Json.null)) (stripRef k))

/-- The paths of ls written as a comprehension over the hash index: one path
per field of every indexed row of every table in enumeration order, the
reserved hash key excluded and reference fields included. -/
def lsSpec (s : Store) : List String :=
  s.dataIndexed.flatMap (fun t =>
    t.2.flatMap (fun hr =>
      hr.2.filterMap (fun kv =>
        if kv.1 = "_hash" then none
        else some (t.1 ++ "/" ++ hr.1 ++ "/" ++ kv.1))))

/-- The raw cell select stores for a non-reference column segment. -/
def rawCell : Option Json → Cell
  | none => Cell.undef
  | some j => Cell.val j

/-! Concrete fixtures used by witnesses and counterexamples. -/

/-- A concrete content hash for witnesses: determined by the k field, so
rows of equal content always collide and rows with different k differ. -/
def exHash : Row → String := fun r => "h" ++ jsKey ((jget r "k").getD (Json.str "0"))

/-- An unhashed row of content k = x. -/
def dupRowIn : Row := [("k", Json.str "x")]

/-- The same row after hash stamping. -/
def dupRow : Row := [("k", Json.str "x"), ("_hash", Json.str "hx")]

/-- A batch whose rows-container holds two rows of identical content. -/
def dupBatch : Batch := [("t", BTable.mk (some (BVal.rows [dupRowIn, dupRowIn])))]

/-- The store addData builds from the empty store and dupBatch: both copies
stay in the ordered sequence while the index holds a single entry. -/
def dupStore : Store :=
  Store.mk [("t", [dupRow, dupRow])] [("t", [("hx", dupRow)])]

/-- A two-row batch of distinct contents. -/
def exBatch : Batch :=
  [("t", BTable.mk (some (BVal.rows [[("k", Json.str "a0")], [("k", Json.str "a1")]])))]

/-- The first stamped row of exBatch. -/
def exRow0 : Row := [("k", Json.str "a0"), ("_hash", Json.str "ha0")]

/-- The second stamped row of exBatch. -/
def exRow1 : Row := [("k", Json.str "a1"), ("_hash", Json.str "ha1")]

/-- The store addData builds from the empty store and exBatch. -/
def exStore : Store :=
  Store.mk [("t", [exRow0, exRow1])]
    [("t", [("ha0", exRow0), ("ha1", exRow1)])]

/-- A batch whose only table entry is missing its rows-container. -/
def badBatch : Batch := [("t", BTable.mk none)]

/-- A batch mixing a missing rows-container (table a) with a present but
non-array rows-container (table b). -/
def mixedBatch : Batch :=
  [("a", BTable.mk none), ("b", BTable.mk (some (BVal.nonArray (Json.str "x"))))]

/-- A batch whose only table entry carries a non-array rows-container. -/
def wrongBatch : Batch := [("b", BTable.mk (some (BVal.nonArray (Json.str "x"))))]

/-- The terminal row of the reference chain. -/
def rowD : Row := [("value", Json.str "d"), ("_hash", Json.str "hD")]

/-- A row referencing table d. -/
def rowC : Row := [("dRef", Json.str "hD"), ("value", Json.str "c"), ("_hash", Json.str "hC")]

/-- A row referencing table c. -/
def rowB : Row := [("cRef", Json.str "hC"), ("value", Json.str "b"), ("_hash", Json.str "hB")]

/-- A row referencing table b. -/
def rowA : Row := [("bRef", Json.str "hB"), ("value", Json.str "a"), ("_hash", Json.str "hA")]

/-- A store with the reference chain a to b to c to d. -/
def chainStore : Store :=
  Store.mk
    [("a", [rowA]), ("b", [rowB]), ("c", [rowC]), ("d", [rowD])]
    [("a", [("hA", rowA)]), ("b", [("hB", rowB)]), ("c", [("hC", rowC)]),
     ("d", [("hD", rowD)])]

/-- A row whose reference field names table d with a hash that is a row of
no table. -/
def brokenRow : Row := [("dRef", Json.str "nope"), ("_hash", Json.str "hX")]

/-- A store holding brokenRow next to an intact table d. -/
def brokenStore : Store :=
  Store.mk [("x", [brokenRow]), ("d", [rowD])]
    [("x", [("hX", brokenRow)]), ("d", [("hD", rowD)])]

/-- A row with a field bound to JSON null. -/
def nullRow : Row := [("n", Json.null), ("_hash", Json.str "hN")]

/-- A store holding nullRow. -/
def nullStore : Store := Store.mk [("t", [nullRow])] [("t", [("hN", nullRow)])]

/-! Basic lemmas about the JS object embedding. -/

theorem jget_jset_self {α : Type} (m : List (String × α)) (k : String) (v : α) :
    jget (jset m k v) k = some v := by
  induction m with
  | nil => simp [jget, jset]
  | cons e rest ih =>
      by_cases hk : e.1 = k
      · simp [jget, jset, hk]
      · simpa [jget, jset, hk] using ih

theorem jget_jset_ne {α : Type} (m : List (String × α)) {k k' : String} (v : α)
    (h : k' ≠ k) : jget (jset m k v) k' = jget m k' := by
  induction m with
  | nil =>
      have h1 : ¬ k = k' := fun hh => h hh.symm
      simp [jget, jset, h1]
  | cons e rest ih =>
      obtain ⟨k0, v0⟩ := e
      by_cases hk : k0 = k
      · subst hk
        have h1 : ¬ k0 = k' := fun hh => h hh.symm
        simp [jget, jset, h1]
      · by_cases hk' : k0 = k'
        · subst hk'
          simp [jget, jset, h]
        · simpa [jget, jset, hk, hk'] using ih

theorem jset_of_jget_none {α : Type} (m : List (String × α)) {k : String} (v : α)
    (h : jget m k = none) : jset m k v = m ++ [(k, v)] := by
  induction m with
  | nil => simp [jset]
  | cons e rest ih =>
      by_cases hk : e.1 = k
      · simp [jget, hk] at h
      · simp [jget, hk] at h
        simp [jset, hk, ih h]

theorem jget_append_of_none {α : Type} {m1 : List (String × α)} (m2 : List (String × α))
    {k : String} (h : jget m1 k = none) : jget (m1 ++ m2) k = jget m2 k := by
  induction m1 with
  | nil => simp
  | cons e rest ih =>
      by_cases hk : e.1 = k
      · simp [jget, hk] at h
      · simp [jget, hk] at h ⊢
        exact ih h

theorem jget_mapVal {α β : Type} (f : α → β) (l : List (String × α)) (k : String) :
    jget (mapVal f l) k = (jget l k).map f := by
  induction l with
  | nil => simp [jget, mapVal]
  | cons e rest ih =>
      by_cases hk : e.1 = k
      · simp [jget, mapVal, hk]
      · simpa [jget, mapVal, hk] using ih

theorem jset_mapVal {α β : Type} (f : α → β) (l : List (String × α)) (k : String) (v : α) :
    jset (mapVal f l) k (f v) = mapVal f (jset l k v) := by
  induction l with
  | nil => simp [jset, mapVal]
  | cons e rest ih =>
      by_cases hk : e.1 = k
      · simp [jset, mapVal, hk]
      · simpa [jset, mapVal, hk] using ih

theorem jget_some_mem {α : Type} {l : List (String × α)} {k : String} {v : α}
    (h : jget l k = some v) : (k, v) ∈ l := by
  induction l with
  | nil => simp [jget] at h
  | cons e rest ih =>
      obtain ⟨k0, v0⟩ := e
      by_cases hk : k0 = k
      · simp [jget, hk] at h
        subst hk
        subst h
        exact List.mem_cons_self _ _
      · simp [jget, hk] at h
        exact List.mem_cons_of_mem _ (ih h)

theorem jget_eq_of_mem_nodup {α : Type} {l : List (String × α)} {k : String} {v : α}
    (hnd : (l.map Prod.fst).Nodup) (hmem : (k, v) ∈ l) : jget l k = some v := by
  induction l with
  | nil => simp at hmem
  | cons e rest ih =>
      obtain ⟨k0, v0⟩ := e
      rw [List.map_cons, List.nodup_cons] at hnd
      rcases List.mem_cons.mp hmem with heq | hmem'
      · rw [Prod.mk.injEq] at heq
        simp [jget, heq.1.symm, heq.2]
      · have hmm : (k, v).1 ∈ rest.map Prod.fst := List.mem_map_of_mem Prod.fst hmem'
        have hne : k0 ≠ k := by
          intro hk
          exact hnd.1 (by
            rw [hk]
            exact hmm)
        simp [jget, hne]
        exact ih hnd.2 hmem'

theorem mapVal_keys {α β : Type} (f : α → β) (l : List (String × α)) :
    (mapVal f l).map Prod.fst = l.map Prod.fst := by
  induction l with
  | nil => rfl
  | cons e rest ih => simp [mapVal]

/-! Lemmas about rows, hashing and the merge algorithm. -/

theorem rowHash_jset_hash (r : Row) (s : String) :
    rowHash (jset r "_hash" (Json.str s)) = s := by
  simp [rowHash, jget_jset_self, jsKey]

theorem rowHash_applyRow (h : Row → String) (r : Row) :
    rowHash (applyRow h true r) = h (stripHash r) := by
  simp [applyRow, rowHash_jset_hash]

theorem jget_map_pairRow_isSome (rs : List Row) (k : String) :
    (jget (rs.map pairRow) k).isSome = true ↔ k ∈ rs.map rowHash := by
  induction rs with
  | nil => simp [jget]
  | cons r rest ih =>
      by_cases hk : rowHash r = k
      · simp [jget, pairRow, hk]
      · have hstep : jget ((r :: rest).map pairRow) k = jget (rest.map pairRow) k := by
          simp [jget, pairRow, hk]
        rw [hstep, ih, List.map_cons, List.mem_cons]
        constructor
        · exact fun hm => Or.inr hm
        · rintro (hl | hr)
          · exact absurd hl.symm hk
          · exact hr

theorem foldl_jset_pair (rs : List Row) :
    ∀ m : List (String × Row), (∀ k, k ∈ rs.map rowHash → jget m k = none) →
      (rs.map rowHash).Nodup →
      rs.foldl (fun acc r => jset acc (rowHash r) r) m = m ++ rs.map pairRow := by
  induction rs with
  | nil => simp
  | cons r rest ih =>
      intro m hdisj hnd
      rw [List.map_cons, List.nodup_cons] at hnd
      have h0 : jget m (rowHash r) = none := hdisj _ (by simp)
      have hstep : jset m (rowHash r) r = m ++ [pairRow r] :=
        jset_of_jget_none m r h0
      rw [List.foldl_cons, hstep, ih (m ++ [pairRow r]) ?_ hnd.2]
      · simp [pairRow]
      · intro k hkmem
        have hne : rowHash r ≠ k := by
          intro hh
          exact hnd.1 (hh ▸ hkmem)
        rw [jget_append_of_none _ (hdisj _ (by simp [hkmem]))]
        simp [jget, pairRow, hne]

theorem rowsToMap_eq_of_nodup (rs : List Row) (hnd : (rs.map rowHash).Nodup) :
    rowsToMap rs = rs.map pairRow := by
  have := foldl_jset_pair rs [] (by
    intro k _
    simp [jget]) hnd
  simpa [rowsToMap] using this

theorem mergeRows_pair (newRows : List Row) :
    ∀ old : List Row, (old.map rowHash).Nodup →
      (mergeRows (old, old.map pairRow) newRows).2 =
        (mergeRows (old, old.map pairRow) newRows).1.map pairRow ∧
      ((mergeRows (old, old.map pairRow) newRows).1.map rowHash).Nodup := by
  induction newRows with
  | nil =>
      intro old hnd
      exact ⟨rfl, hnd⟩
  | cons item rest ih =>
      intro old hnd
      by_cases hmem : rowHash item ∈ old.map rowHash
      · have hsome : (jget (old.map pairRow) (rowHash item)).isSome = true :=
          (jget_map_pairRow_isSome old (rowHash item)).mpr hmem
        have hstep : mergeRows (old, old.map pairRow) (item :: rest) =
            mergeRows (old, old.map pairRow) rest := by
          simp [mergeRows, hsome]
        rw [hstep]
        exact ih old hnd
      · have hnone : jget (old.map pairRow) (rowHash item) = none := by
          cases hj : jget (old.map pairRow) (rowHash item) with
          | none => rfl
          | some w =>
              exact absurd ((jget_map_pairRow_isSome old (rowHash item)).mp (by
                rw [hj]
                rfl)) hmem
        have happ : jset (old.map pairRow) (rowHash item) item =
            (old ++ [item]).map pairRow := by
          rw [jset_of_jget_none _ _ hnone]
          simp [pairRow]
        have hstep : mergeRows (old, old.map pairRow) (item :: rest) =
            mergeRows (old ++ [item], (old ++ [item]).map pairRow) rest := by
          simp [mergeRows, hnone, happ]
        have hnd2 : ((old ++ [item]).map rowHash).Nodup := by
          simp [List.nodup_append, hnd]
          intro x hx hxx
          exact hmem (by
            rw [← hxx]
            exact List.mem_map_of_mem rowHash hx)
        rw [hstep]
        exact ih (old ++ [item]) hnd2

theorem mergeRows_all_present (newRows : List Row) :
    ∀ old : List Row, ∀ oldIdx : List (String × Row),
      (∀ r, r ∈ newRows → (jget oldIdx (rowHash r)).isSome = true) →
      mergeRows (old, oldIdx) newRows = (old, oldIdx) := by
  induction newRows with
  | nil =>
      intro old oldIdx _
      rfl
  | cons item rest ih =>
      intro old oldIdx hall
      have h0 : (jget oldIdx (rowHash item)).isSome = true := hall item (by simp)
      have hstep : mergeRows (old, oldIdx) (item :: rest) = mergeRows (old, oldIdx) rest := by
        simp [mergeRows, h0]
      rw [hstep]
      exact ih old oldIdx (fun r hr => hall r (by simp [hr]))

/-! Structure of successful addData calls, and the table invariant. -/

theorem addData_ok_elim {h : Row → String} {s : Store} {batch : Batch} {opts : AddOpts}
    {s' : Store} (hok : addData h s batch opts = Except.ok s') :
    s' = (if s.data.isEmpty then
            Store.mk (addedTables h batch opts) (toMap (addedTables h batch opts))
          else mergeAll s (addedTables h batch opts) (toMap (addedTables h batch opts))) := by
  unfold addData addDataRun at hok
  cases h1 : checkData batch with
  | error e =>
      rw [h1] at hok
      simp at hok
  | ok u =>
      rw [h1] at hok
      cases h2 : checkTableNames batch with
      | error e =>
          rw [h2] at hok
          simp at hok
      | ok u2 =>
          rw [h2] at hok
          cases h3 : (if opts.validateHashes then validateRows h (batchRows batch)
              else Except.ok ()) with
          | error e =>
              rw [h3] at hok
              simp at hok
          | ok u3 =>
              rw [h3] at hok
              by_cases he : s.data.isEmpty
              · rw [if_pos he]
                simp only [he, if_true] at hok
                simp only [addedTables]
                exact (Except.ok.injEq _ _ ▸ hok :
                  Store.mk (hashTables h opts.updateHashes (batchRows batch))
                    (toMap (hashTables h opts.updateHashes (batchRows batch))) = s').symm
              · rw [if_neg he]
                simp only [he, if_false] at hok
                simp only [addedTables]
                exact (Except.ok.injEq _ _ ▸ hok :
                  mergeAll s (hashTables h opts.updateHashes (batchRows batch))
                    (toMap (hashTables h opts.updateHashes (batchRows batch))) = s').symm

theorem mapVal_congr {α β : Type} {f g : α → β} {l : List (String × α)}
    (h : ∀ e, e ∈ l → f e.2 = g e.2) : mapVal f l = mapVal g l := by
  induction l with
  | nil => rfl
  | cons e rest ih =>
      simp only [mapVal, List.map_cons]
      rw [h e (by simp)]
      have := ih (fun e2 he2 => h e2 (List.mem_cons_of_mem _ he2))
      simp only [mapVal] at this
      rw [this]

theorem mem_mapVal {α β : Type} {f : α → β} {l : List (String × α)} {e : String × β}
    (h : e ∈ mapVal f l) : ∃ e0, e0 ∈ l ∧ e = (e0.1, f e0.2) := by
  induction l with
  | nil => simp [mapVal] at h
  | cons e1 rest ih =>
      simp only [mapVal, List.map_cons, List.mem_cons] at h
      rcases h with h | h
      · exact ⟨e1, by simp, h⟩
      · obtain ⟨e0, he0, heq⟩ := ih h
        exact ⟨e0, List.mem_cons_of_mem _ he0, heq⟩

theorem batchRows_keys_sublist (batch : Batch) :
    List.Sublist ((batchRows batch).map Prod.fst) (batch.map Prod.fst) := by
  induction batch with
  | nil => simp [batchRows]
  | cons e rest ih =>
      unfold batchRows at ih ⊢
      rw [List.filterMap_cons]
      cases hfe : (if e.1 = "_hash" then none
          else match e.2.dataField with
            | some (BVal.rows rs) => some (e.1, rs)
            | _ => none : Option (String × List Row)) with
      | none =>
          simp only [List.map_cons]
          exact ih.cons e.1
      | some b =>
          have hb1 : b.1 = e.1 := by
            by_cases hh : e.1 = "_hash"
            · simp [hh] at hfe
            · simp only [hh, if_false] at hfe
              cases hdf : e.2.dataField with
              | none => simp [hdf] at hfe
              | some bv =>
                  cases bv with
                  | rows rs =>
                      simp [hdf] at hfe
                      rw [← hfe]
                  | nonArray j => simp [hdf] at hfe
          simp only [List.map_cons, hb1]
          exact ih.cons₂ e.1

theorem merge_foldl_inv (s : Store)
    (hidx : s.dataIndexed = mapVal (List.map pairRow) s.data)
    (hnods : ∀ t rs, jget s.data t = some rs → (rs.map rowHash).Nodup)
    (addedMap : List (String × List (String × Row))) :
    ∀ (l : List (String × List Row))
      (acc : List (String × List Row) × List (String × List (String × Row))),
      (∀ t rs, (t, rs) ∈ l → jget addedMap t = some (rowsToMap rs)) →
      (∀ t rs, (t, rs) ∈ l → jget s.data t = none → (rs.map rowHash).Nodup) →
      acc.2 = mapVal (List.map pairRow) acc.1 →
      (∀ t rs, jget acc.1 t = some rs → (rs.map rowHash).Nodup) →
      (l.foldl (mergeStep s addedMap) acc).2 =
        mapVal (List.map pairRow) (l.foldl (mergeStep s addedMap) acc).1 ∧
      ∀ t rs, jget (l.foldl (mergeStep s addedMap) acc).1 t = some rs →
        (rs.map rowHash).Nodup := by
  intro l
  induction l with
  | nil =>
      intro acc _ _ hacc2 haccn
      exact ⟨hacc2, haccn⟩
  | cons e rest ih =>
      intro acc hmap hfresh hacc2 haccn
      obtain ⟨t0, rs0⟩ := e
      rw [List.foldl_cons]
      have hmap' : ∀ t rs, (t, rs) ∈ rest → jget addedMap t = some (rowsToMap rs) :=
        fun t rs hm => hmap t rs (List.mem_cons_of_mem _ hm)
      have hfresh' : ∀ t rs, (t, rs) ∈ rest → jget s.data t = none → (rs.map rowHash).Nodup :=
        fun t rs hm => hfresh t rs (List.mem_cons_of_mem _ hm)
      cases hold : jget s.data t0 with
      | none =>
          have hnd0 : (rs0.map rowHash).Nodup := hfresh t0 rs0 (by simp) hold
          have hstep : mergeStep s addedMap acc (t0, rs0) =
              (jset acc.1 t0 rs0, jset acc.2 t0 (rs0.map pairRow)) := by
            unfold mergeStep
            rw [hold, hmap t0 rs0 (by simp), rowsToMap_eq_of_nodup rs0 hnd0]
            rfl
          rw [hstep]
          apply ih _ hmap' hfresh'
          · rw [hacc2]
            exact jset_mapVal (List.map pairRow) acc.1 t0 rs0
          · intro t rs hget
            by_cases ht : t = t0
            · subst ht
              rw [jget_jset_self] at hget
              cases hget
              exact hnd0
            · rw [jget_jset_ne _ _ ht] at hget
              exact haccn t rs hget
      | some oldRows =>
          have hoidx : (jget s.dataIndexed t0).getD [] = oldRows.map pairRow := by
            rw [hidx, jget_mapVal, hold]
            rfl
          have hndold : (oldRows.map rowHash).Nodup := hnods t0 oldRows hold
          have hmp := mergeRows_pair rs0 oldRows hndold
          have hstep : mergeStep s addedMap acc (t0, rs0) =
              (jset acc.1 t0 (mergeRows (oldRows, oldRows.map pairRow) rs0).1,
               jset acc.2 t0 (mergeRows (oldRows, oldRows.map pairRow) rs0).2) := by
            unfold mergeStep
            rw [hold, hoidx]
          rw [hstep]
          apply ih _ hmap' hfresh'
          · rw [hacc2, hmp.1]
            exact jset_mapVal (List.map pairRow) acc.1 t0 _
          · intro t rs hget
            by_cases ht : t = t0
            · subst ht
              rw [jget_jset_self] at hget
              cases hget
              exact hmp.2
            · rw [jget_jset_ne _ _ ht] at hget
              exact haccn t rs hget

theorem addedTables_nodup_of_fresh {h : Row → String} {s : Store} {batch : Batch}
    {opts : AddOpts} (hfresh : freshDistinctB h s batch opts = true) :
    ∀ t rs, (t, rs) ∈ addedTables h batch opts → jget s.data t = none →
      (rs.map rowHash).Nodup := by
  intro t rs hmem hnone
  obtain ⟨e0, he0, heq⟩ := mem_mapVal hmem
  rw [Prod.mk.injEq] at heq
  have hall := (List.all_eq_true.mp hfresh) e0 he0
  rw [← heq.1, hnone] at hall
  simp only [Option.isNone_none, if_true] at hall
  rw [heq.2]
  exact of_decide_eq_true hall

theorem addedTables_keys_nodup {h : Row → String} {batch : Batch} {opts : AddOpts}
    (hkeys : (batch.map Prod.fst).Nodup) :
    ((addedTables h batch opts).map Prod.fst).Nodup := by
  unfold addedTables hashTables
  rw [mapVal_keys]
  exact List.Nodup.sublist (batchRows_keys_sublist batch) hkeys

theorem addData_preserves_inv {h : Row → String} {s s' : Store} {batch : Batch}
    {opts : AddOpts} (hinv : storeInv s) (hkeys : (batch.map Prod.fst).Nodup)
    (hfresh : freshDistinctB h s batch opts = true)
    (hok : addData h s batch opts = Except.ok s') : storeInv s' := by
  rw [addData_ok_elim hok]
  by_cases he : s.data.isEmpty
  · rw [if_pos he]
    have hsnil : s.data = [] := by
      cases hv : s.data with
      | nil => rfl
      | cons x xs =>
          rw [hv] at he
          simp [List.isEmpty] at he
    have hnodall : ∀ e, e ∈ addedTables h batch opts → (e.2.map rowHash).Nodup := by
      intro e hmem
      exact addedTables_nodup_of_fresh hfresh e.1 e.2 (by
        cases e
        exact hmem) (by
        rw [hsnil]
        rfl)
    constructor
    · show toMap (addedTables h batch opts) = mapVal (List.map pairRow) (addedTables h batch opts)
      unfold toMap
      exact mapVal_congr (fun e hmem => rowsToMap_eq_of_nodup e.2 (hnodall e hmem))
    · intro t rs hget
      exact (hnodall (t, rs) (jget_some_mem hget))
  · rw [if_neg he]
    have hmap : ∀ t rs, (t, rs) ∈ addedTables h batch opts →
        jget (toMap (addedTables h batch opts)) t = some (rowsToMap rs) := by
      intro t rs hmem
      unfold toMap
      rw [jget_mapVal, jget_eq_of_mem_nodup (addedTables_keys_nodup hkeys) hmem]
      rfl
    have hgo := merge_foldl_inv s hinv.1 hinv.2 (toMap (addedTables h batch opts))
      (addedTables h batch opts) (s.data, s.dataIndexed) hmap
      (fun t rs hm => addedTables_nodup_of_fresh hfresh t rs hm) hinv.1 hinv.2
    exact ⟨hgo.1, hgo.2⟩

theorem storeInv_claimInv {s : Store} (hinv : storeInv s) : claimInv s := by
  intro t rs hget
  refine ⟨hinv.2 t rs hget, ?_⟩
  rw [hinv.1, jget_mapVal, hget]
  simp

theorem reachableD_storeInv {h : Row → String} {s : Store} (hr : ReachableD h s) :
    storeInv s := by
  induction hr with
  | empty =>
      constructor
      · rfl
      · intro t rs hget
        simp [Store.empty, jget] at hget
  | step s0 s' batch opts _ hkeys hfresh hok ih =>
      exact addData_preserves_inv ih hkeys hfresh hok

/-! Lemmas about value resolution. -/

theorem value_eq_go (s : Store) (table ih : String) (r : Row) (path : List String)
    (hne : ih.isEmpty = false) (hrow : Store.row s table ih = Except.ok r) :
    value s table ih path = valueGo s table ih r path := by
  unfold value
  rw [hne, hrow]
  rfl

theorem valueGo_ref_step (s : Store) (table ih : String) (r : Row) (refKey : String)
    (rest : List String) (v : Json) (r2 : Row)
    (hv : jgetNN r refKey = some v) (href : isRefKey refKey = true)
    (hne : (jsKey v).isEmpty = false)
    (hrow : Store.row s (stripRef refKey) (jsKey v) = Except.ok r2) :
    valueGo s table ih r (refKey :: rest) =
      valueGo s (stripRef refKey) (jsKey v) r2 rest := by
  conv_lhs => rw [valueGo]
  rw [hv]
  simp only [href, Bool.not_true, Bool.false_eq_true, if_false, hne, hrow]

theorem valueGo_leaf (s : Store) (table ih : String) (r : Row) (key : String) (v : Json)
    (hv : jgetNN r key = some v) (href : isRefKey key = false) :
    valueGo s table ih r [key] = Except.ok (RVal.val v) := by
  unfold valueGo
  rw [hv]
  simp only [href, Bool.not_false, if_true]

theorem valueGo_null_key (s : Store) (table ih : String) (r : Row) (key : String)
    (rest : List String) (hv : jget r key = some Json.null) :
    valueGo s table ih r (key :: rest) =
      Except.error (Err.keyNotFound key ih table) := by
  unfold valueGo
  have hnn : jgetNN r key = none := by
    simp [jgetNN, hv]
  rw [hnn]

/-! Claim C4. -/

/-- C4: in a store whose tables a, b, c, d are chained by reference fields
carrying the hash of the next row, value on table a with the path bRef,
cRef, dRef, value returns the leaf stored under value in the row of table
d. -/
theorem C4_chained_link_resolution (s : Store) (ha hb hc hd : String)
    (rA rB rC rD : Row) (vd : Json)
    (hha : ha.isEmpty = false) (hhb : hb.isEmpty = false)
    (hhc : hc.isEmpty = false) (hhd : hd.isEmpty = false)
    (hrowA : Store.row s "a" ha = Except.ok rA)
    (hbref : jgetNN rA "bRef" = some (Json.str hb))
    (hrowB : Store.row s "b" hb = Except.ok rB)
    (hcref : jgetNN rB "cRef" = some (Json.str hc))
    (hrowC : Store.row s "c" hc = Except.ok rC)
    (hdref : jgetNN rC "dRef" = some (Json.str hd))
    (hrowD : Store.row s "d" hd = Except.ok rD)
    (hval : jgetNN rD "value" = some vd) :
    value s "a" ha ["bRef", "cRef", "dRef", "value"] = Except.ok (RVal.val vd) := by
  have e1 : stripRef "bRef" = "b" := by decide
  have e2 : stripRef "cRef" = "c" := by decide
  have e3 : stripRef "dRef" = "d" := by decide
  have s1 : value s "a" ha ["bRef", "cRef", "dRef", "value"] =
      valueGo s "a" ha rA ["bRef", "cRef", "dRef", "value"] :=
    value_eq_go s "a" ha rA _ hha hrowA
  have s2 : valueGo s "a" ha rA ("bRef" :: ["cRef", "dRef", "value"]) =
      valueGo s (stripRef "bRef") (jsKey (Json.str hb)) rB ["cRef", "dRef", "value"] :=
    valueGo_ref_step s "a" ha rA "bRef" _ (Json.str hb) rB hbref (by decide) hhb (by
      rw [e1]
      exact hrowB)
  have s3 : valueGo s (stripRef "bRef") (jsKey (Json.str hb)) rB
      ("cRef" :: ["dRef", "value"]) =
      valueGo s (stripRef "cRef") (jsKey (Json.str hc)) rC ["dRef", "value"] :=
    valueGo_ref_step s (stripRef "bRef") (jsKey (Json.str hb)) rB "cRef" _ (Json.str hc)
      rC hcref (by decide) hhc (by
      rw [e2]
      exact hrowC)
  have s4 : valueGo s (stripRef "cRef") (jsKey (Json.str hc)) rC ("dRef" :: ["value"]) =
      valueGo s (stripRef "dRef") (jsKey (Json.str hd)) rD ["value"] :=
    valueGo_ref_step s (stripRef "cRef") (jsKey (Json.str hc)) rC "dRef" _ (Json.str hd)
      rD hdref (by decide) hhd (by
      rw [e3]
      exact hrowD)
  have s5 : valueGo s (stripRef "dRef") (jsKey (Json.str hd)) rD ["value"] =
      Except.ok (RVal.val vd) :=
    valueGo_leaf s (stripRef "dRef") (jsKey (Json.str hd)) rD "value" vd hval (by decide)
  exact s1.trans (s2.trans (s3.trans (s4.trans s5)))

/-- Witness for C4 at the concrete chain store: the resolved leaf is d. -/
theorem C4_witness :
    value chainStore "a" "hA" ["bRef", "cRef", "dRef", "value"] =
      Except.ok (RVal.val (Json.str "d")) :=
  C4_chained_link_resolution chainStore "hA" "hB" "hC" "hD" rowA rowB rowC rowD
    (Json.str "d") rfl rfl rfl rfl rfl rfl rfl rfl rfl rfl rfl rfl

/-! Claim C10. -/

/-- C10: a row field stored as JSON null is indistinguishable from an
absent key: value on a path whose first segment is such a field raises the
key-not-found error naming that key, the row hash and the table. -/
theorem C10_null_leaf_key_not_found (s : Store) (t ih : String) (r : Row)
    (key : String) (rest : List String)
    (hne : ih.isEmpty = false) (hrow : Store.row s t ih = Except.ok r)
    (hnull : jget r key = some Json.null) :
    value s t ih (key :: rest) = Except.error (Err.keyNotFound key ih t) := by
  rw [value_eq_go s t ih r _ hne hrow]
  exact valueGo_null_key s t ih r key rest hnull

/-- Witness for C10 at the concrete store holding a null leaf. -/
theorem C10_witness :
    value nullStore "t" "hN" ["n"] =
      Except.error (Err.keyNotFound "n" "hN" "t") :=
  C10_null_leaf_key_not_found nullStore "t" "hN" nullRow "n" [] rfl rfl rfl

/-! Claim C5. -/

/-- Counterexample to C5 as stated: the empty string contains no
non-alphanumeric character, does not end in the reference marker and does
not start with a digit, so it violates none of the three stated rules, yet
checkTableName rejects it with the character-set error (the regex of the
source requires at least one character). -/
theorem C5_counterexample :
    ("".toList.all Char.isAlphanum = true) ∧ (isRefKey "" = false) ∧
      (startsWithDigit "" = false) ∧
      checkTableName "" = Except.error (Err.invalidTableNameChars "") :=
  ⟨by decide, by decide, by decide, rfl⟩

/-- C5 amended: the three rules are checked in the fixed order character
set, reserved suffix, leading digit, and the first violated rule wins; a
string with any non-alphanumeric character gets the character-set error; a
non-empty all-alphanumeric string ending in the marker gets the suffix
error even when it also starts with a digit; a NON-EMPTY string violating
none of the three rules is accepted, while the empty string gets the
character-set error. -/
theorem C5_name_rules_order (s : String) :
    (∀ c, c ∈ s.toList → c.isAlphanum = false →
      checkTableName s = Except.error (Err.invalidTableNameChars s)) ∧
    (s.toList ≠ [] → s.toList.all Char.isAlphanum = true → isRefKey s = true →
      checkTableName s = Except.error (Err.invalidTableNameRef s)) ∧
    (s.toList ≠ [] → s.toList.all Char.isAlphanum = true → isRefKey s = false →
      startsWithDigit s = false → checkTableName s = Except.ok ()) ∧
    (s.toList = [] → checkTableName s = Except.error (Err.invalidTableNameChars s)) := by
  refine ⟨?_, ?_, ?_, ?_⟩
  · intro c hc hca
    have hall : s.toList.all Char.isAlphanum = false := by
      cases hh : s.toList.all Char.isAlphanum
      · rfl
      · have := (List.all_eq_true.mp hh) c hc
        rw [hca] at this
        cases this
    have hvt : validTableChars s = false := by
      unfold validTableChars
      rw [hall]
      exact Bool.and_false _
    simp [checkTableName, hvt]
  · intro hne hall href
    have hie : s.toList.isEmpty = false := by
      cases hl : s.toList with
      | nil => exact absurd hl hne
      | cons c cs => rfl
    have hvt : validTableChars s = true := by
      unfold validTableChars
      rw [hall, hie]
      rfl
    simp [checkTableName, hvt, href]
  · intro hne hall href hdig
    have hie : s.toList.isEmpty = false := by
      cases hl : s.toList with
      | nil => exact absurd hl hne
      | cons c cs => rfl
    have hvt : validTableChars s = true := by
      unfold validTableChars
      rw [hall, hie]
      rfl
    simp [checkTableName, hvt, href, hdig]
  · intro hnil
    have hvt : validTableChars s = false := by
      unfold validTableChars
      rw [hnil]
      rfl
    simp [checkTableName, hvt]

/-- Witness for C5 at concrete names: a slash loses to every later rule, an
all-alphanumeric digit-led marker name gets the suffix error, and a plain
alphanumeric name passes. -/
theorem C5_witness :
    checkTableName "a-b" = Except.error (Err.invalidTableNameChars "a-b") ∧
    checkTableName "1Ref" = Except.error (Err.invalidTableNameRef "1Ref") ∧
    checkTableName "tableA" = Except.ok () :=
  ⟨(C5_name_rules_order "a-b").1 '-' (by decide) (by decide),
   (C5_name_rules_order "1Ref").2.1 (by decide) (by decide) (by decide),
   (C5_name_rules_order "tableA").2.2.1 (by decide) (by decide) (by decide) (by decide)⟩

/-! Claim C6. -/

/-- C6: when addData throws (structural check, table-name check or
requested hash validation), the observable state of the receiver, its
ordered table data and its hash index, is exactly what it was before the
call: every check runs before any mutation. -/
theorem C6_failed_addData_keeps_state (h : Row → String) (s : Store) (batch : Batch)
    (opts : AddOpts) (e : Err)
    (herr : (addDataRun h s batch opts).1 = Except.error e) :
    (addDataRun h s batch opts).2 = s := by
  unfold addDataRun at herr ⊢
  cases h1 : checkData batch with
  | error e1 => rfl
  | ok u =>
      cases h2 : checkTableNames batch with
      | error e2 => rfl
      | ok u2 =>
          cases h3 : (if opts.validateHashes then validateRows h (batchRows batch)
              else Except.ok ()) with
          | error e3 => rfl
          | ok u3 =>
              rw [h1, h2, h3] at herr
              by_cases he : s.data.isEmpty
              · simp [he] at herr
              · simp [he] at herr

/-- Witness for C6: a batch with a missing rows-container fails against a
non-empty store and leaves its state untouched. -/
theorem C6_witness :
    (addDataRun exHash exStore badBatch defaultOpts).1 =
      Except.error (Err.missingData ["t"]) ∧
    (addDataRun exHash exStore badBatch defaultOpts).2 = exStore :=
  ⟨rfl, C6_failed_addData_keeps_state exHash exStore badBatch defaultOpts
    (Err.missingData ["t"]) rfl⟩

/-! Claim C8. -/

theorem bvalIsNull_not_array {o : Option BVal} (h : bvalIsNull o = true) :
    bvalIsArray o = false := by
  cases o with
  | none => rfl
  | some bv =>
      cases bv with
      | rows rs => simp [bvalIsNull] at h
      | nonArray j => rfl

/-- Counterexample to C8 as stated: in a batch mixing a missing
rows-container (table a) with a present non-array one (table b), the
raised error is the combined missing-container error naming only a; table
b is never reported, and a sits in BOTH offender lists. -/
theorem C8_counterexample :
    checkData mixedBatch = Except.error (Err.missingData ["a"]) ∧
    missingList mixedBatch = ["a"] ∧
    wrongList mixedBatch = ["a", "b"] :=
  ⟨rfl, rfl, rfl⟩

/-- C8 amended: tables with a missing rows-container are collected and
reported together in one combined error; tables whose container is present
but not an array are reported together in one combined wrong-type error
ONLY when no table is missing its container; a batch clean on both counts
passes; and every missing-container table also sits in the wrong-type
offender list (whose error is then preempted), so the two lists are not
disjoint. -/
theorem C8_checkData_batched (batch : Batch) :
    (missingList batch ≠ [] →
      checkData batch = Except.error (Err.missingData (missingList batch))) ∧
    (missingList batch = [] → wrongList batch ≠ [] →
      checkData batch = Except.error (Err.wrongType (wrongList batch))) ∧
    (missingList batch = [] → wrongList batch = [] → checkData batch = Except.ok ()) ∧
    (∀ t, t ∈ missingList batch → t ∈ wrongList batch) := by
  refine ⟨?_, ?_, ?_, ?_⟩
  · intro hm
    simp [checkData, hm]
  · intro hm hw
    simp [checkData, hm, hw]
  · intro hm hw
    simp [checkData, hm, hw]
  · intro t ht
    unfold missingList at ht
    unfold wrongList
    obtain ⟨e, he, het⟩ := List.mem_map.mp ht
    have hef := List.mem_filter.mp he
    have hp := hef.2
    rw [Bool.and_eq_true] at hp
    apply List.mem_map.mpr
    refine ⟨e, List.mem_filter.mpr ⟨hef.1, ?_⟩, het⟩
    rw [Bool.and_eq_true]
    exact ⟨hp.1, by
      rw [bvalIsNull_not_array hp.2]
      rfl⟩

/-- Witness for C8 at concrete batches: a mixed batch reports the missing
list, a wrong-type-only batch reports the wrong-type list, a clean batch
passes, and table a of the mixed batch sits in both lists. -/
theorem C8_witness :
    checkData mixedBatch = Except.error (Err.missingData (missingList mixedBatch)) ∧
    checkData wrongBatch = Except.error (Err.wrongType (wrongList wrongBatch)) ∧
    checkData exBatch = Except.ok () ∧ "a" ∈ wrongList mixedBatch :=
  ⟨(C8_checkData_batched mixedBatch).1 (by decide),
   (C8_checkData_batched wrongBatch).2.1 (by decide) (by decide),
   (C8_checkData_batched exBatch).2.2.1 (by decide) (by decide),
   (C8_checkData_batched mixedBatch).2.2.2 "a" (by decide)⟩

/-! Claim C3. -/

theorem merge_foldl_preserve (s : Store) (addedMap : List (String × List (String × Row)))
    (t : String) (oldRows : List Row) (oldIdx : List (String × Row))
    (hold : jget s.data t = some oldRows)
    (holdIdx : jget s.dataIndexed t = some oldIdx) :
    ∀ (l : List (String × List Row))
      (acc : List (String × List Row) × List (String × List (String × Row))),
      (∀ rs, (t, rs) ∈ l → ∀ r, r ∈ rs → (jget oldIdx (rowHash r)).isSome = true) →
      jget acc.1 t = some oldRows → jget acc.2 t = some oldIdx →
      jget (l.foldl (mergeStep s addedMap) acc).1 t = some oldRows ∧
      jget (l.foldl (mergeStep s addedMap) acc).2 t = some oldIdx := by
  intro l
  induction l with
  | nil =>
      intro acc _ h1 h2
      exact ⟨h1, h2⟩
  | cons e rest ih =>
      intro acc hall h1 h2
      obtain ⟨t0, rs0⟩ := e
      rw [List.foldl_cons]
      have hall' : ∀ rs, (t, rs) ∈ rest → ∀ r, r ∈ rs → (jget oldIdx (rowHash r)).isSome = true :=
        fun rs hm => hall rs (List.mem_cons_of_mem _ hm)
      by_cases ht : t0 = t
      · subst ht
        have hmr : mergeRows (oldRows, oldIdx) rs0 = (oldRows, oldIdx) :=
          mergeRows_all_present rs0 oldRows oldIdx (hall rs0 (by simp))
        have hstep : mergeStep s addedMap acc (t0, rs0) =
            (jset acc.1 t0 oldRows, jset acc.2 t0 oldIdx) := by
          unfold mergeStep
          rw [hold]
          simp [holdIdx, hmr]
        rw [hstep]
        exact ih _ hall' (by
          rw [jget_jset_self]) (by
          rw [jget_jset_self])
      · have hg1 : jget (mergeStep s addedMap acc (t0, rs0)).1 t = jget acc.1 t := by
          unfold mergeStep
          cases jget s.data t0 with
          | none => exact jget_jset_ne _ _ (fun hh => ht hh.symm)
          | some oldRows0 => exact jget_jset_ne _ _ (fun hh => ht hh.symm)
        have hg2 : jget (mergeStep s addedMap acc (t0, rs0)).2 t = jget acc.2 t := by
          unfold mergeStep
          cases jget s.data t0 with
          | none => exact jget_jset_ne _ _ (fun hh => ht hh.symm)
          | some oldRows0 => exact jget_jset_ne _ _ (fun hh => ht hh.symm)
        exact ih _ hall' (by
          rw [hg1]
          exact h1) (by
          rw [hg2]
          exact h2)

/-- C3: re-ingesting a batch whose rows are all already merged into an
existing table (same content, hence a hash already present in the index)
leaves that table's ordered row sequence and hash index exactly as they
were: the row count is unchanged and the stored row objects are untouched. -/
theorem C3_idempotent_merge (h : Row → String) (s : Store) (batch : Batch)
    (opts : AddOpts) (s' : Store) (t : String) (oldRows : List Row)
    (oldIdx : List (String × Row))
    (hok : addData h s batch opts = Except.ok s')
    (hne : s.data.isEmpty = false)
    (hold : jget s.data t = some oldRows)
    (holdIdx : jget s.dataIndexed t = some oldIdx)
    (hall : ∀ rs, (t, rs) ∈ addedTables h batch opts →
      ∀ r, r ∈ rs → (jget oldIdx (rowHash r)).isSome = true) :
    jget s'.data t = some oldRows ∧ jget s'.dataIndexed t = some oldIdx := by
  rw [addData_ok_elim hok, if_neg (by
    rw [hne]
    exact Bool.false_ne_true)]
  exact merge_foldl_preserve s (toMap (addedTables h batch opts)) t oldRows oldIdx
    hold holdIdx (addedTables h batch opts) (s.data, s.dataIndexed) hall hold holdIdx

/-- Witness for C3: re-ingesting the identical two-row batch into the store
it built leaves the two-row table and its index unchanged. -/
theorem C3_witness :
    jget exStore.data "t" = some [exRow0, exRow1] ∧
    jget exStore.dataIndexed "t" = some [("ha0", exRow0), ("ha1", exRow1)] :=
  C3_idempotent_merge exHash exStore exBatch defaultOpts exStore "t"
    [exRow0, exRow1] [("ha0", exRow0), ("ha1", exRow1)] rfl rfl rfl rfl (by
    intro rs hmem r hr
    have hred : addedTables exHash exBatch defaultOpts = [("t", [exRow0, exRow1])] := rfl
    rw [hred] at hmem
    rw [List.mem_singleton, Prod.mk.injEq] at hmem
    rw [hmem.2] at hr
    rw [List.mem_cons, List.mem_singleton] at hr
    rcases hr with hr | hr
    · rw [hr]
      rfl
    · rw [hr]
      rfl)

/-! Claim C1. -/

/-- Counterexample to C1 as stated: ingesting a batch whose rows-container
holds two rows of identical content into the empty store is reachable by
one successful addData call, yet the resulting table keeps BOTH rows in its
ordered sequence (two rows sharing the hash hx) while the index holds a
single entry, so neither pairwise hash distinctness nor one-index-entry-
per-row holds. -/
theorem C1_counterexample : Reachable exHash dupStore ∧ ¬ claimInv dupStore :=
  ⟨Reachable.step Store.empty dupStore dupBatch defaultOpts Reachable.empty
    (by decide) rfl,
   fun hcl => absurd ((hcl "t" [dupRow, dupRow] rfl).1) (by decide)⟩

/-- C1 amended: for every store reachable from the empty store by
successful addData calls whose freshly adopted tables (tables not yet in
the store, in particular every table of a batch ingested into the empty
store) carry rows of pairwise distinct hashes, every table's ordered row
sequence has pairwise distinct hash values and the hash index holds
exactly one entry per row of the sequence; merging into an existing table
deduplicates by hash and never breaks this. -/
theorem C1_rows_unique_by_hash (h : Row → String) (s : Store)
    (hr : ReachableD h s) : claimInv s :=
  storeInv_claimInv (reachableD_storeInv hr)

/-- Witness for C1 at the concrete two-row store built from the empty store
by one addData call of two distinct rows. -/
theorem C1_witness :
    (List.map rowHash [exRow0, exRow1]).Nodup ∧
    (jget exStore.dataIndexed "t").map List.length =
      some (List.length [exRow0, exRow1]) :=
  C1_rows_unique_by_hash exHash exStore
    (ReachableD.step Store.empty exStore exBatch defaultOpts ReachableD.empty
      (by decide) (by decide) rfl) "t" [exRow0, exRow1] rfl

/-! Claim C2. -/

theorem mapE_ok_length {α β : Type} (f : α → Except Err β) :
    ∀ (l : List α) (l' : List β), mapE f l = Except.ok l' → l'.length = l.length := by
  intro l
  induction l with
  | nil =>
      intro l' h
      cases h
      rfl
  | cons x rest ih =>
      intro l' h
      cases hfx : f x with
      | error e => simp [mapE, hfx] at h
      | ok bx =>
          cases hrest : mapE f rest with
          | error e => simp [mapE, hfx, hrest] at h
          | ok bs =>
              simp [mapE, hfx, hrest] at h
              subst h
              simp [ih bs hrest]

theorem mapE_ok_get {α β : Type} (f : α → Except Err β) :
    ∀ (l : List α) (l' : List β) (i : Nat) (a : α) (b : β),
      mapE f l = Except.ok l' → l[i]? = some a → l'[i]? = some b →
      f a = Except.ok b := by
  intro l
  induction l with
  | nil =>
      intro l' i a b hm hga hgb
      simp at hga
  | cons x rest ih =>
      intro l' i a b hm hga hgb
      cases hfx : f x with
      | error e => simp [mapE, hfx] at hm
      | ok bx =>
          cases hrest : mapE f rest with
          | error e => simp [mapE, hfx, hrest] at hm
          | ok bs =>
              simp [mapE, hfx, hrest] at hm
              subst hm
              cases i with
              | zero =>
                  simp at hga hgb
                  subst hga
                  subst hgb
                  exact hfx
              | succ n =>
                  simp at hga hgb
                  exact ih bs n a b hrest hga hgb

/-- Counterexample to C2 as stated: on the chain store, the column path
value/extra has a non-reference first segment with a further segment, so
the rule of value raises the extra-key error; select instead returns the
raw leaf and silently ignores the extra segment. -/
theorem C2_counterexample :
    select chainStore "a" ["value/extra"] = Except.ok [[Cell.val (Json.str "a")]] ∧
    value chainStore "a" "hA" ["value", "extra"] =
      Except.error (Err.extraKey "extra" "value") :=
  ⟨rfl, rfl⟩

/-- C2 amended: select yields one output row per source row and resolves
every cell with selectCell on the slash-split path; a cell whose first
segment is a reference field present in the row with a non-null value is
resolved exactly by value on the stripped table, that value and the
remaining path; a cell with a non-reference first segment is the raw field
value of the row (undefined when the key is absent), with any further
segments ignored and without the missing-key or extra-key errors of
value. -/
theorem C2_select_follows_value :
    (∀ (s : Store) (table : String) (cols : List String) (rows : List Row)
       (grid : List (List Cell)),
      jget s.data table = some rows → select s table cols = Except.ok grid →
      grid.length = rows.length ∧
      ∀ (i j : Nat) (r : Row) (c : String) (rowOut : List Cell) (cell : Cell),
        rows[i]? = some r → cols[j]? = some c → grid[i]? = some rowOut →
        rowOut[j]? = some cell → selectCell s r (splitCol c) = Except.ok cell) ∧
    (∀ (s : Store) (r : Row) (key : String) (rest : List String) (v : Json),
      isRefKey key = true → jget r key = some v → v ≠ Json.null →
      selectCell s r (key :: rest) =
        (value s (stripRef key) (jsKey v) rest).map cellOfRVal) ∧
    (∀ (s : Store) (r : Row) (key : String) (rest : List String),
      isRefKey key = false →
      selectCell s r (key :: rest) = Except.ok (rawCell (jget r key))) := by
  refine ⟨?_, ?_, ?_⟩
  · intro s table cols rows grid hget hsel
    unfold select at hsel
    rw [hget] at hsel
    refine ⟨mapE_ok_length _ rows grid hsel, ?_⟩
    intro i j r c rowOut cell hri hcj hgi hcellj
    have hrow : mapE (selectCell s r) (cols.map splitCol) = Except.ok rowOut :=
      mapE_ok_get _ rows grid i r rowOut hsel hri hgi
    have hcj2 : (cols.map splitCol)[j]? = some (splitCol c) := by
      rw [List.getElem?_map, hcj]
      rfl
    exact mapE_ok_get _ (cols.map splitCol) rowOut j (splitCol c) cell hrow hcj2 hcellj
  · intro s r key rest v href hv hvn
    unfold selectCell
    simp only [href, Bool.not_true, Bool.false_eq_true, if_false]
    rw [hv]
    cases v with
    | null => exact absurd rfl hvn
    | bool b => rfl
    | num n => rfl
    | str st => rfl
  · intro s r key rest href
    unfold selectCell
    simp only [href, Bool.not_false, if_true]
    cases jget r key with
    | none => rfl
    | some j => rfl

/-- Witness for C2 at the chain store: the cell of column bRef/value on the
single row of table a is produced by selectCell, which resolves it through
value. -/
theorem C2_witness :
    selectCell chainStore rowA (splitCol "bRef/value") =
      Except.ok (Cell.val (Json.str "b")) ∧
    selectCell chainStore rowA ("bRef" :: ["value"]) =
      (value chainStore (stripRef "bRef") (jsKey (Json.str "hB")) ["value"]).map
        cellOfRVal ∧
    selectCell chainStore rowA ("missing" :: ["extra"]) =
      Except.ok (rawCell (jget rowA "missing")) :=
  ⟨(C2_select_follows_value.1 chainStore "a" ["bRef/value"] [rowA]
      [[Cell.val (Json.str "b")]] rfl rfl).2 0 0 rowA "bRef/value"
      [Cell.val (Json.str "b")] (Cell.val (Json.str "b")) rfl rfl rfl rfl,
   C2_select_follows_value.2.1 chainStore rowA "bRef" ["value"] (Json.str "hB")
      (by decide) rfl (by decide),
   C2_select_follows_value.2.2 chainStore rowA "missing" ["extra"] (by decide)⟩

/-! Claim C9. -/

theorem ls_fields_foldl (t hsh : String) :
    ∀ (fields : Row) (acc : List String),
      fields.foldl
        (fun res3 kv =>
          if kv.1 = "_hash" then res3 else res3 ++ [t ++ "/" ++ hsh ++ "/" ++ kv.1]) acc =
      acc ++ fields.filterMap
        (fun kv =>
          if kv.1 = "_hash" then none else some (t ++ "/" ++ hsh ++ "/" ++ kv.1)) := by
  intro fields
  induction fields with
  | nil => simp
  | cons kv rest ih =>
      intro acc
      by_cases hk : kv.1 = "_hash"
      · simp only [List.foldl_cons, List.filterMap_cons, hk, if_true]
        exact ih acc
      · simp only [List.foldl_cons, List.filterMap_cons, hk, if_false]
        rw [ih (acc ++ [t ++ "/" ++ hsh ++ "/" ++ kv.1])]
        simp

theorem ls_rows_foldl (t : String) :
    ∀ (idx : List (String × Row)) (acc : List String),
      idx.foldl
        (fun res2 hr =>
          hr.2.foldl
            (fun res3 kv =>
              if kv.1 = "_hash" then res3 else res3 ++ [t ++ "/" ++ hr.1 ++ "/" ++ kv.1])
            res2) acc =
      acc ++ idx.flatMap
        (fun hr =>
          hr.2.filterMap
            (fun kv =>
              if kv.1 = "_hash" then none
              else some (t ++ "/" ++ hr.1 ++ "/" ++ kv.1))) := by
  intro idx
  induction idx with
  | nil => simp
  | cons hr rest ih =>
      intro acc
      simp only [List.foldl_cons, List.flatMap_cons]
      rw [ls_fields_foldl t hr.1 hr.2 acc, ih]
      simp

theorem ls_tables_foldl :
    ∀ (tables : List (String × List (String × Row))) (acc : List String),
      tables.foldl
        (fun res tb =>
          tb.2.foldl
            (fun res2 hr =>
              hr.2.foldl
                (fun res3 kv =>
                  if kv.1 = "_hash" then res3
                  else res3 ++ [tb.1 ++ "/" ++ hr.1 ++ "/" ++ kv.1])
                res2) res) acc =
      acc ++ tables.flatMap
        (fun tb =>
          tb.2.flatMap
            (fun hr =>
              hr.2.filterMap
                (fun kv =>
                  if kv.1 = "_hash" then none
                  else some (tb.1 ++ "/" ++ hr.1 ++ "/" ++ kv.1)))) := by
  intro tables
  induction tables with
  | nil => simp
  | cons tb rest ih =>
      intro acc
      simp only [List.foldl_cons, List.flatMap_cons]
      rw [ls_rows_foldl tb.1 tb.2 acc, ih]
      simp

/-- Counterexample to C9 as stated: on the chain store, ls lists the path
of the reference field bRef of table a, so reference fields are not
excluded; only the reserved hash field is skipped. -/
theorem C9_counterexample :
    ls chainStore =
      ["a/hA/bRef", "a/hA/value", "b/hB/cRef", "b/hB/value", "c/hC/dRef",
       "c/hC/value", "d/hD/value"] ∧
    isRefKey "bRef" = true :=
  ⟨rfl, rfl⟩

/-- C9 amended: ls returns exactly one path table/rowHash/fieldName per
field of every indexed row of every table, in table, row, field
enumeration order, excluding only the reserved hash field; reference
fields are listed like any other field. -/
theorem C9_ls_lists_every_field (s : Store) :
    ls s = lsSpec s ∧
    ∀ (t : String) (idx : List (String × Row)) (hsh : String) (item : Row) (k : String),
      (t, idx) ∈ s.dataIndexed → (hsh, item) ∈ idx → k ∈ item.map Prod.fst →
      k ≠ "_hash" → (t ++ "/" ++ hsh ++ "/" ++ k) ∈ ls s := by
  have heq : ls s = lsSpec s := by
    unfold ls lsSpec
    rw [ls_tables_foldl s.dataIndexed []]
    simp
  refine ⟨heq, ?_⟩
  intro t idx hsh item k hmem1 hmem2 hmem3 hkne
  rw [heq]
  unfold lsSpec
  apply List.mem_flatMap.mpr
  refine ⟨(t, idx), hmem1, ?_⟩
  apply List.mem_flatMap.mpr
  refine ⟨(hsh, item), hmem2, ?_⟩
  obtain ⟨kv, hkv, hk1⟩ := List.mem_map.mp hmem3
  apply List.mem_filterMap.mpr
  refine ⟨kv, hkv, ?_⟩
  simp [hk1, hkne]

/-- Witness for C9 at the chain store: the path of the concrete leaf value
of table a is listed. -/
theorem C9_witness : ("a" ++ "/" ++ "hA" ++ "/" ++ "value") ∈ ls chainStore :=
  (C9_ls_lists_every_field chainStore).2 "a" [("hA", rowA)] "hA" rowA "value"
    (by decide) (by decide) (by decide) (by decide)

/-! Claim C7. -/

theorem checkRowLinks_cons_hash (s : Store) (t : String) (item : Row) (rest : List String) :
    checkRowLinks s t item ("_hash" :: rest) = checkRowLinks s t item rest := by
  simp only [checkRowLinks]
  simp

theorem checkRowLinks_cons_nonref (s : Store) (t : String) (item : Row) (k : String)
    (rest : List String) (hk : k ≠ "_hash") (href : isRefKey k = false) :
    checkRowLinks s t item (k :: rest) = checkRowLinks s t item rest := by
  simp only [checkRowLinks]
  simp [hk, href]

theorem checkRowLinks_cons_notable (s : Store) (t : String) (item : Row) (k : String)
    (rest : List String) (hk : k ≠ "_hash") (href : isRefKey k = true)
    (hlt : jget s.dataIndexed (stripRef k) = none) :
    checkRowLinks s t item (k :: rest) =
      Except.error (Err.linkTableNotFound t (rowHash item) k) := by
  simp only [checkRowLinks]
  simp [hk, href, hlt]

theorem checkRowLinks_cons_noitem (s : Store) (t : String) (item : Row) (k : String)
    (rest : List String) (lt : List (String × Row)) (hk : k ≠ "_hash")
    (href : isRefKey k = true) (hlt : jget s.dataIndexed (stripRef k) = some lt)
    (hti : jget lt (jsKey ((jget item k).getD Json.null)) = none) :
    checkRowLinks s t item (k :: rest) =
      Except.error (Err.linkItemNotFound t (rowHash item)
        (jsKey ((jget item k).getD Json.null)) (stripRef k)) := by
  simp only [checkRowLinks]
  simp [hk, href, hlt, hti]

theorem checkRowLinks_cons_found (s : Store) (t : String) (item : Row) (k : String)
    (rest : List String) (lt : List (String × Row)) (w : Row) (hk : k ≠ "_hash")
    (href : isRefKey k = true) (hlt : jget s.dataIndexed (stripRef k) = some lt)
    (hti : jget lt (jsKey ((jget item k).getD Json.null)) = some w) :
    checkRowLinks s t item (k :: rest) = checkRowLinks s t item rest := by
  simp only [checkRowLinks]
  simp [hk, href, hlt, hti]

theorem checkRowLinks_ok_iff (s : Store) (t : String) (item : Row) :
    ∀ keys : List String,
      checkRowLinks s t item keys = Except.ok () ↔
      ∀ k, k ∈ keys → ¬ rowViol s item k := by
  intro keys
  induction keys with
  | nil => simp [checkRowLinks]
  | cons k rest ih =>
      have hsplit : ∀ (hrec : checkRowLinks s t item (k :: rest) = checkRowLinks s t item rest)
          (hknot : ¬ rowViol s item k),
          (checkRowLinks s t item (k :: rest) = Except.ok () ↔
            ∀ k2, k2 ∈ k :: rest → ¬ rowViol s item k2) := by
        intro hrec hknot
        rw [hrec, ih]
        constructor
        · intro hall k2 hk2
          rcases List.mem_cons.mp hk2 with h1 | h2
          · subst h1
            exact hknot
          · exact hall k2 h2
        · intro hall k2 hk2
          exact hall k2 (List.mem_cons_of_mem _ hk2)
      by_cases hk : k = "_hash"
      · subst hk
        exact hsplit (checkRowLinks_cons_hash s t item rest) (fun hv => hv.1 rfl)
      · by_cases href : isRefKey k
        · cases hlt : jget s.dataIndexed (stripRef k) with
          | none =>
              rw [checkRowLinks_cons_notable s t item k rest hk href hlt]
              constructor
              · intro h
                cases h
              · intro hall
                exact ((hall k (by simp)) ⟨hk, href, Or.inl hlt⟩).elim
          | some lt =>
              cases hti : jget lt (jsKey ((jget item k).getD Json.null)) with
              | none =>
                  rw [checkRowLinks_cons_noitem s t item k rest lt hk href hlt hti]
                  constructor
                  · intro h
                    cases h
                  · intro hall
                    exact ((hall k (by simp)) ⟨hk, href, Or.inr ⟨lt, hlt, hti⟩⟩).elim
              | some w =>
                  refine hsplit (checkRowLinks_cons_found s t item k rest lt w hk href hlt hti) ?_
                  intro hv
                  rcases hv.2.2 with hnone | ⟨lt2, hlt2, hti2⟩
                  · rw [hlt] at hnone
                    cases hnone
                  · rw [hlt] at hlt2
                    cases hlt2
                    rw [hti] at hti2
                    cases hti2
        · exact hsplit (checkRowLinks_cons_nonref s t item k rest hk (by
            cases hb : isRefKey k
            · rfl
            · exact absurd hb href)) (fun hv => href hv.2.1)

theorem checkRowLinks_error (s : Store) (t : String) (item : Row) :
    ∀ (keys : List String) (e : Err), checkRowLinks s t item keys = Except.error e →
      ∃ k, k ∈ keys ∧ k ≠ "_hash" ∧ isRefKey k = true ∧
        ((jget s.dataIndexed (stripRef k) = none ∧
          e = Err.linkTableNotFound t (rowHash item) k) ∨
         (∃ lt, jget s.dataIndexed (stripRef k) = some lt ∧
            jget lt (jsKey ((jget item k).getD Json.null)) = none ∧
            e = Err.linkItemNotFound t (rowHash item)
              (jsKey ((jget item k).getD Json.null)) (stripRef k))) := by
  intro keys
  induction keys with
  | nil =>
      intro e he
      cases he
  | cons k rest ih =>
      intro e he
      have hext : ∀ (hrec : checkRowLinks s t item (k :: rest) = checkRowLinks s t item rest),
          ∃ k2, k2 ∈ k :: rest ∧ k2 ≠ "_hash" ∧ isRefKey k2 = true ∧
            ((jget s.dataIndexed (stripRef k2) = none ∧
              e = Err.linkTableNotFound t (rowHash item) k2) ∨
             (∃ lt, jget s.dataIndexed (stripRef k2) = some lt ∧
                jget lt (jsKey ((jget item k2).getD Json.null)) = none ∧
                e = Err.linkItemNotFound t (rowHash item)
                  (jsKey ((jget item k2).getD Json.null)) (stripRef k2))) := by
        intro hrec
        rw [hrec] at he
        obtain ⟨k2, hk2, hrest⟩ := ih e he
        exact ⟨k2, List.mem_cons_of_mem _ hk2, hrest⟩
      by_cases hk : k = "_hash"
      · subst hk
        exact hext (checkRowLinks_cons_hash s t item rest)
      · by_cases href : isRefKey k
        · cases hlt : jget s.dataIndexed (stripRef k) with
          | none =>
              rw [checkRowLinks_cons_notable s t item k rest hk href hlt] at he
              refine ⟨k, by simp, hk, href, Or.inl ⟨hlt, ?_⟩⟩
              cases he
              rfl
          | some lt =>
              cases hti : jget lt (jsKey ((jget item k).getD Json.null)) with
              | none =>
                  rw [checkRowLinks_cons_noitem s t item k rest lt hk href hlt hti] at he
                  refine ⟨k, by simp, hk, href, Or.inr ⟨lt, hlt, hti, ?_⟩⟩
                  cases he
                  rfl
              | some w =>
                  exact hext (checkRowLinks_cons_found s t item k rest lt w hk href hlt hti)
        · exact hext (checkRowLinks_cons_nonref s t item k rest hk (by
            cases hb : isRefKey k
            · rfl
            · exact absurd hb href))

theorem checkTableLinks_ok_iff (s : Store) (t : String) :
    ∀ idx : List (String × Row),
      checkTableLinks s t idx = Except.ok () ↔
      ∀ p, p ∈ idx → ∀ k, k ∈ p.2.map Prod.fst → ¬ rowViol s p.2 k := by
  intro idx
  induction idx with
  | nil => simp [checkTableLinks]
  | cons p rest ih =>
      cases hrl : checkRowLinks s t p.2 (p.2.map Prod.fst) with
      | error e =>
          have hstep : checkTableLinks s t (p :: rest) = Except.error e := by
            simp only [checkTableLinks]
            rw [hrl]
          rw [hstep]
          constructor
          · intro h
            cases h
          · intro hall
            obtain ⟨k, hkmem, hkne, href, hdis⟩ :=
              checkRowLinks_error s t p.2 (p.2.map Prod.fst) e hrl
            refine ((hall p (by simp) k hkmem) ⟨hkne, href, ?_⟩).elim
            rcases hdis with ⟨h1, _⟩ | ⟨lt, h1, h2, _⟩
            · exact Or.inl h1
            · exact Or.inr ⟨lt, h1, h2⟩
      | ok u =>
          cases u
          have hstep : checkTableLinks s t (p :: rest) = checkTableLinks s t rest := by
            simp only [checkTableLinks]
            rw [hrl]
          rw [hstep, ih]
          constructor
          · intro hall p2 hp2
            rcases List.mem_cons.mp hp2 with h1 | h2
            · subst h1
              exact fun k hk => ((checkRowLinks_ok_iff s t p2.2 (p2.2.map Prod.fst)).mp hrl) k hk
            · exact hall p2 h2
          · intro hall p2 hp2
            exact hall p2 (List.mem_cons_of_mem _ hp2)

theorem checkTableLinks_error (s : Store) (t : String) :
    ∀ (idx : List (String × Row)) (e : Err), checkTableLinks s t idx = Except.error e →
      ∃ p, p ∈ idx ∧ ∃ k, k ∈ p.2.map Prod.fst ∧ k ≠ "_hash" ∧ isRefKey k = true ∧
        ((jget s.dataIndexed (stripRef k) = none ∧
          e = Err.linkTableNotFound t (rowHash p.2) k) ∨
         (∃ lt, jget s.dataIndexed (stripRef k) = some lt ∧
            jget lt (jsKey ((jget p.2 k).getD Json.null)) = none ∧
            e = Err.linkItemNotFound t (rowHash p.2)
              (jsKey ((jget p.2 k).getD Json.null)) (stripRef k))) := by
  intro idx
  induction idx with
  | nil =>
      intro e he
      cases he
  | cons p rest ih =>
      intro e he
      cases hrl : checkRowLinks s t p.2 (p.2.map Prod.fst) with
      | error e2 =>
          have hstep : checkTableLinks s t (p :: rest) = Except.error e2 := by
            simp only [checkTableLinks]
            rw [hrl]
          rw [hstep] at he
          cases he
          obtain ⟨k, hkmem, hrest⟩ := checkRowLinks_error s t p.2 (p.2.map Prod.fst) e hrl
          exact ⟨p, by simp, k, hkmem, hrest⟩
      | ok u =>
          cases u
          have hstep : checkTableLinks s t (p :: rest) = checkTableLinks s t rest := by
            simp only [checkTableLinks]
            rw [hrl]
          rw [hstep] at he
          obtain ⟨p2, hp2, hrest⟩ := ih e he
          exact ⟨p2, List.mem_cons_of_mem _ hp2, hrest⟩

theorem checkTablesLinks_ok_iff (s : Store) :
    ∀ l : List (String × List (String × Row)),
      checkTablesLinks s l = Except.ok () ↔
      ∀ tb, tb ∈ l → ∀ p, p ∈ tb.2 → ∀ k, k ∈ p.2.map Prod.fst → ¬ rowViol s p.2 k := by
  intro l
  induction l with
  | nil => simp [checkTablesLinks]
  | cons tb rest ih =>
      cases htl : checkTableLinks s tb.1 tb.2 with
      | error e =>
          have hstep : checkTablesLinks s (tb :: rest) = Except.error e := by
            simp only [checkTablesLinks]
            rw [htl]
          rw [hstep]
          constructor
          · intro h
            cases h
          · intro hall
            obtain ⟨p, hp, k, hkmem, hkne, href, hdis⟩ :=
              checkTableLinks_error s tb.1 tb.2 e htl
            refine ((hall tb (by simp) p hp k hkmem) ⟨hkne, href, ?_⟩).elim
            rcases hdis with ⟨h1, _⟩ | ⟨lt, h1, h2, _⟩
            · exact Or.inl h1
            · exact Or.inr ⟨lt, h1, h2⟩
      | ok u =>
          cases u
          have hstep : checkTablesLinks s (tb :: rest) = checkTablesLinks s rest := by
            simp only [checkTablesLinks]
            rw [htl]
          rw [hstep, ih]
          constructor
          · intro hall tb2 htb2
            rcases List.mem_cons.mp htb2 with h1 | h2
            · subst h1
              exact (checkTableLinks_ok_iff s tb2.1 tb2.2).mp htl
            · exact hall tb2 h2
          · intro hall tb2 htb2
            exact hall tb2 (List.mem_cons_of_mem _ htb2)

theorem checkTablesLinks_error (s : Store) :
    ∀ (l : List (String × List (String × Row))) (e : Err),
      checkTablesLinks s l = Except.error e →
      ∃ tb, tb ∈ l ∧ ∃ p, p ∈ tb.2 ∧ ∃ k, k ∈ p.2.map Prod.fst ∧ k ≠ "_hash" ∧
        isRefKey k = true ∧
        ((jget s.dataIndexed (stripRef k) = none ∧
          e = Err.linkTableNotFound tb.1 (rowHash p.2) k) ∨
         (∃ lt, jget s.dataIndexed (stripRef k) = some lt ∧
            jget lt (jsKey ((jget p.2 k).getD Json.null)) = none ∧
            e = Err.linkItemNotFound tb.1 (rowHash p.2)
              (jsKey ((jget p.2 k).getD Json.null)) (stripRef k))) := by
  intro l
  induction l with
  | nil =>
      intro e he
      cases he
  | cons tb rest ih =>
      intro e he
      cases htl : checkTableLinks s tb.1 tb.2 with
      | error e2 =>
          have hstep : checkTablesLinks s (tb :: rest) = Except.error e2 := by
            simp only [checkTablesLinks]
            rw [htl]
          rw [hstep] at he
          cases he
          obtain ⟨p, hp, hrest⟩ := checkTableLinks_error s tb.1 tb.2 e htl
          exact ⟨tb, by simp, p, hp, hrest⟩
      | ok u =>
          cases u
          have hstep : checkTablesLinks s (tb :: rest) = checkTablesLinks s rest := by
            simp only [checkTablesLinks]
            rw [htl]
          rw [hstep] at he
          obtain ⟨tb2, htb2, hrest⟩ := ih e he
          exact ⟨tb2, List.mem_cons_of_mem _ htb2, hrest⟩

/-- C7: checkLinks succeeds exactly when no row of any table has a
reference field whose target table is absent or whose value is not a row
hash of the target table; and any thrown error describes an actual broken
link: the source table, the source row hash, the reference field or target
table name, and, for a dangling hash, the missing target hash. -/
theorem C7_checkLinks_sound_complete (s : Store) :
    (checkLinks s = Except.ok () ↔ ¬ linkViol s) ∧
    (∀ e, checkLinks s = Except.error e → errViol s e) := by
  constructor
  · rw [checkLinks, checkTablesLinks_ok_iff s s.dataIndexed]
    constructor
    · intro hall hviol
      obtain ⟨t, idx, hmem, p, hp, k, hk, hv⟩ := hviol
      exact (hall (t, idx) hmem p hp k hk) hv
    · intro hnv tb htb p hp k hk hv
      exact hnv ⟨tb.1, tb.2, htb, p, hp, k, hk, hv⟩
  · intro e he
    obtain ⟨tb, htb, p, hp, k, hkmem, hkne, href, hdis⟩ :=
      checkTablesLinks_error s s.dataIndexed e he
    rcases hdis with ⟨h1, h2⟩ | ⟨lt, h1, h2, h3⟩
    · exact Or.inl ⟨tb.1, tb.2, htb, p, hp, k, hkmem, href, h1, h2⟩
    · exact Or.inr ⟨tb.1, tb.2, htb, p, hp, k, lt, hkmem, href, h1, h2, h3⟩

/-- Witness for C7: the fully connected chain store passes, and the store
with a dangling reference throws an error describing exactly that broken
link. -/
theorem C7_witness :
    (¬ linkViol chainStore) ∧
    errViol brokenStore (Err.linkItemNotFound "x" "hX" "nope" "d") :=
  ⟨(C7_checkLinks_sound_complete chainStore).1.mp rfl,
   (C7_checkLinks_sound_complete brokenStore).2
     (Err.linkItemNotFound "x" "hX" "nope" "d") rfl⟩

end Rljson
